import Mathlib

/-!
Shallow embedding of `proxygen/lib/http/codec/compress/HPACKCodec.cpp`.

The file models the HPACK codec adapter: role assignment at construction,
the encode pipeline (lowercase name normalization, size accounting, engine
invocation), and the decode pipeline (scratch clearing, error
classification, piece-list flattening, size accounting).

The compression engine (`HPACKEncoder` / `HPACKDecoder`) is an external
collaborator whose implementation is not part of this unit; its behaviour
on a given call is therefore passed in as data (an encode function for
`encode`, an `EngineDecodeResult` for `decode`), and all theorems quantify
over it.  Strings are modelled as byte lists, matching the byte-wise
operation of `folly::toLowerAscii`.
-/

namespace proxygen

/-- A byte string (C++ `std::string` contents viewed as bytes). -/
abbrev Bytes := List Nat

/-- Byte-wise ASCII lowercasing, as `folly::toLowerAscii` performs on each
byte: bytes in the range of ASCII capital letters are shifted down into the
lowercase range, all other bytes are untouched. -/
def toLowerAsciiByte (b : Nat) : Nat :=
  if 65 ≤ b ∧ b ≤ 90 then b + 32 else b

/-- `folly::toLowerAscii` applied to a whole buffer. -/
def toLowerAscii (s : Bytes) : Bytes :=
  s.map toLowerAsciiByte

/-- `proxygen::TransportDirection`. -/
inductive TransportDirection
  | DOWNSTREAM
  | UPSTREAM
deriving DecidableEq, Repr

namespace HPACK

/-- `HPACK::MessageType`: the role an engine instance is bound to. -/
inductive MessageType
  | REQ
  | RESP
deriving DecidableEq, Repr

end HPACK

/-- `proxygen::compress::Header`: the caller-side name/value pair (the C++
struct holds pointers to caller-owned strings; the adapter only reads them,
so here they appear by value). -/
structure Header where
  name : Bytes
  value : Bytes
deriving DecidableEq, Repr

/-- `proxygen::HPACKHeader`: the engine-side name/value pair. -/
structure HPACKHeader where
  name : Bytes
  value : Bytes
deriving DecidableEq, Repr

/-- `proxygen::compress::HeaderPiece`: one flattened name or value entry of
the decode output, with its ownership flag and the multi-valued marker. -/
structure HeaderPiece where
  str : Bytes
  owner : Bool
  multiValued : Bool
deriving DecidableEq, Repr

/-- The `{compressed, uncompressed}` size-accounting pair
(`HTTPHeaderSize`). -/
structure HTTPHeaderSize where
  compressed : Nat
  uncompressed : Nat
deriving DecidableEq, Repr

/-- `proxygen::HeaderDecodeError`: the two error kinds the adapter can
surface from `decode`. -/
inductive HeaderDecodeError
  | BAD_ENCODING
  | HEADERS_TOO_LARGE
deriving DecidableEq, Repr

/-- `HPACKDecoder::Error`: the engine-level decode error cause.  The
adapter only distinguishes `HEADERS_TOO_LARGE` from everything else, so all
other causes are represented by `other` with an arbitrary code. -/
inductive HPACKDecoderError
  | HEADERS_TOO_LARGE
  | other (code : Nat)
deriving DecidableEq, Repr

/-- `HeaderCodec::Type` (named `CodecType` here since `Type` is reserved in
Lean); only the `HPACK` member is used by this unit. -/
inductive CodecType
  | HPACK
deriving DecidableEq, Repr

/-- One call on the optional stats recorder (`HeaderCodec::Stats`). -/
inductive StatsEvent
  | recordEncode (t : CodecType) (size : HTTPHeaderSize)
  | recordDecode (t : CodecType) (size : HTTPHeaderSize)
  | recordDecodeError (t : CodecType)
deriving DecidableEq, Repr

/-- `HeaderDecodeResult`: the success payload of `decode` — the piece list
and the number of bytes consumed from the cursor. -/
structure HeaderDecodeResult where
  headers : List HeaderPiece
  bytesConsumed : Nat
deriving DecidableEq, Repr

/-- The adapter state: the two role bindings chosen at construction, the
recorded size pairs, the reused decode scratch containers, whether a stats
recorder is attached, and the configured encode headroom. -/
structure HPACKCodec where
  encoderType : HPACK.MessageType
  decoderType : HPACK.MessageType
  encodedSize : HTTPHeaderSize
  decodedSize : HTTPHeaderSize
  outHeaders : List HeaderPiece
  decodedHeaders : List HPACKHeader
  hasStats : Bool
  encodeHeadroom : Nat
deriving DecidableEq, Repr

/-- `HPACKCodec::HPACKCodec(TransportDirection)`: DOWNSTREAM binds the
decoder to REQ and the encoder to RESP, UPSTREAM the other way around;
everything else starts empty. -/
def HPACKCodec.init (direction : TransportDirection) : HPACKCodec :=
  let roles : HPACK.MessageType × HPACK.MessageType :=
    if direction = TransportDirection.DOWNSTREAM then
      (HPACK.MessageType.REQ, HPACK.MessageType.RESP)
    else
      (HPACK.MessageType.RESP, HPACK.MessageType.REQ)
  { decoderType := roles.1
    encoderType := roles.2
    encodedSize := ⟨0, 0⟩
    decodedSize := ⟨0, 0⟩
    outHeaders := []
    decodedHeaders := []
    hasStats := false
    encodeHeadroom := 0 }

/-- The conversion loop of `HPACKCodec::encode`: walk the caller's list in
order, build the normalized `HPACKHeader` copy (name lowercased in place on
the copy, value untouched), append it to `converted`, and accumulate the
uncompressed size as `name.size() + value.size() + 2` of the copy. -/
def HPACKCodec.encodeLoop :
    List Header → List HPACKHeader → Nat → List HPACKHeader × Nat
  | [], converted, uncompressed => (converted, uncompressed)
  | h :: rest, converted, uncompressed =>
      let header : HPACKHeader := { name := toLowerAscii h.name, value := h.value }
      HPACKCodec.encodeLoop rest (converted ++ [header])
        (uncompressed + (header.name.length + header.value.length + 2))

/-- The observable outcome of one `HPACKCodec::encode` call: the returned
buffer, the normalized sequence that was handed to the engine, the adapter
state after the call, and the stats calls made during it. -/
structure EncodeOutput where
  buf : Option Bytes
  converted : List HPACKHeader
  st : HPACKCodec
  events : List StatsEvent
deriving DecidableEq, Repr

/-- `HPACKCodec::encode(vector<Header>&)`.  `engineEncode` stands for
`encoder_->encode(converted, encodeHeadroom_)`: the engine's buffer (or
none) for the given header sequence and headroom. -/
def HPACKCodec.encode (st : HPACKCodec)
    (engineEncode : List HPACKHeader → Nat → Option Bytes)
    (headers : List Header) : EncodeOutput :=
  let cu := HPACKCodec.encodeLoop headers [] 0
  let buf := engineEncode cu.1 st.encodeHeadroom
  let compressed := match buf with
    | none => 0
    | some b => b.length
  let st' := { st with encodedSize := ⟨compressed, cu.2⟩ }
  let events :=
    if st.hasStats then [StatsEvent.recordEncode CodecType.HPACK st'.encodedSize]
    else []
  ⟨buf, cu.1, st', events⟩

/-- What one engine decode call (`decoder_->decode(cursor, length,
decodedHeaders_)`) did: the bytes it consumed, the headers it appended into
the (just-cleared) scratch list, and the error state it left behind
(`hasError()` / `getError()`). -/
structure EngineDecodeResult where
  consumed : Nat
  headers : List HPACKHeader
  error : Option HPACKDecoderError
deriving DecidableEq, Repr

/-- The conversion loop of `HPACKCodec::decode`'s success path: for each
decoded header in order append a name piece then a value piece, both with
`owner = false` and `multiValued = true`, and accumulate the uncompressed
size as `name.size() + value.size() + 2`. -/
def HPACKCodec.decodeLoop :
    List HPACKHeader → List HeaderPiece → Nat → List HeaderPiece × Nat
  | [], out, uncompressed => (out, uncompressed)
  | h :: rest, out, uncompressed =>
      HPACKCodec.decodeLoop rest
        (out ++ [⟨h.name, false, true⟩, ⟨h.value, false, true⟩])
        (uncompressed + (h.name.length + h.value.length + 2))

/-- The observable outcome of one `HPACKCodec::decode` call. -/
structure DecodeOutput where
  result : Except HeaderDecodeError HeaderDecodeResult
  st : HPACKCodec
  events : List StatsEvent
deriving Repr

/-- `HPACKCodec::decode(Cursor&, uint32_t)`.  The call starts by clearing
`outHeaders_` and `decodedHeaders_`; `eng` stands for what the engine then
did with the cursor and length.  On an engine error the adapter records a
decode-error stats event and classifies: `HEADERS_TOO_LARGE` maps to
`HeaderDecodeError.HEADERS_TOO_LARGE`, every other cause to
`BAD_ENCODING`, with no success data.  On success it flattens the decoded
headers into the piece list, records the sizes, and returns the list with
the consumed byte count. -/
def HPACKCodec.decode (st : HPACKCodec) (eng : EngineDecodeResult) :
    DecodeOutput :=
  let st1 := { st with outHeaders := [], decodedHeaders := [] }
  let st2 := { st1 with decodedHeaders := eng.headers }
  match eng.error with
  | some e =>
      let events :=
        if st.hasStats then [StatsEvent.recordDecodeError CodecType.HPACK]
        else []
      if e = HPACKDecoderError.HEADERS_TOO_LARGE then
        ⟨Except.error HeaderDecodeError.HEADERS_TOO_LARGE, st2, events⟩
      else
        ⟨Except.error HeaderDecodeError.BAD_ENCODING, st2, events⟩
  | none =>
      let ou := HPACKCodec.decodeLoop eng.headers [] 0
      let st3 := { st2 with
        outHeaders := ou.1
        decodedSize := ⟨eng.consumed, ou.2⟩ }
      let events :=
        if st.hasStats then [StatsEvent.recordDecode CodecType.HPACK st3.decodedSize]
        else []
      ⟨Except.ok ⟨ou.1, eng.consumed⟩, st3, events⟩

/-- The spec's per-header-list uncompressed size: the sum over the headers
of name length + value length + 2. -/
def uncompressedOf (hs : List Header) : Nat :=
  (hs.map fun h => h.name.length + h.value.length + 2).sum

/-- The spec's uncompressed size of a decoded header set. -/
def uncompressedOfDecoded (hs : List HPACKHeader) : Nat :=
  (hs.map fun h => h.name.length + h.value.length + 2).sum

/-- The spec's normalization of one caller header: name lowercased, value
kept. -/
def normalizeHeader (h : Header) : HPACKHeader :=
  { name := toLowerAscii h.name, value := h.value }

/-- The spec's piece list for a decoded header set: per header a name piece
followed by a value piece, each with `multiValued = true`. -/
def piecesOf : List HPACKHeader → List HeaderPiece
  | [] => []
  | h :: rest =>
      ⟨h.name, false, true⟩ :: ⟨h.value, false, true⟩ :: piecesOf rest

/-! ### String-store model of the encode conversion loop

The C++ `compress::Header` holds pointers to caller-owned `std::string`
objects, and the conversion loop lowercases the name of the copy in place
through a `const_cast` of `header.name.data()`.  To state that the
caller's strings are never written, the strings are placed in an explicit
store (index → bytes) and each write is a store update. -/

/-- A heap of string objects, indexed by position.  The caller's strings
occupy the existing cells; copies the adapter builds are appended after
them. -/
abbrev StringStore := List Bytes

/-- A caller-side `compress::Header` as the source stores it: two pointers
(`std::string* name; std::string* value;`), modelled as store indices. -/
structure HeaderRef where
  name : Nat
  value : Nat
deriving DecidableEq, Repr

/-- The conversion loop of `HPACKCodec::encode` at store level.  Per
header: read `*h.name` and `*h.value`; build the `HPACKHeader` copy —
modelled from the spec: `HPACKHeader`'s constructor is declared outside
this slice, and per the spec the adapter "exclusively owns a transient
normalized copy", so construction allocates fresh cells holding copies of
the two strings; then `folly::toLowerAscii` writes the lowercased name
through the copy's data pointer, i.e. updates the copy's cell; finally the
copy's indices join `converted` and its sizes join the accumulator. -/
def HPACKCodec.encodeLoopS :
    List HeaderRef → StringStore → List (Nat × Nat) → Nat →
      StringStore × List (Nat × Nat) × Nat
  | [], store, converted, uncompressed => (store, converted, uncompressed)
  | h :: rest, store, converted, uncompressed =>
      let n := store.getD h.name []
      let v := store.getD h.value []
      let ni := store.length
      let vi := store.length + 1
      let s2 := store ++ [n, v]
      let s3 := s2.set ni (toLowerAscii (s2.getD ni []))
      HPACKCodec.encodeLoopS rest s3 (converted ++ [(ni, vi)])
        (uncompressed + ((s3.getD ni []).length + (s3.getD vi []).length + 2))

/-- `HPACKCodec::encode` at store level: run the conversion loop, resolve
the converted indices to headers, hand them to the engine, return the
buffer together with the final store. -/
def HPACKCodec.encodeS (st : HPACKCodec)
    (engineEncode : List HPACKHeader → Nat → Option Bytes)
    (store : StringStore) (headers : List HeaderRef) :
    Option Bytes × StringStore :=
  let scu := HPACKCodec.encodeLoopS headers store [] 0
  let converted : List HPACKHeader :=
    scu.2.1.map fun p => ⟨scu.1.getD p.1 [], scu.1.getD p.2 []⟩
  (engineEncode converted st.encodeHeadroom, scu.1)

/-! ### Helper lemmas -/

theorem toLowerAscii_length (s : Bytes) : (toLowerAscii s).length = s.length := by
  simp [toLowerAscii]

theorem encodeLoop_eq : ∀ (hs : List Header) (conv : List HPACKHeader) (unc : Nat),
    HPACKCodec.encodeLoop hs conv unc =
      (conv ++ hs.map normalizeHeader, unc + uncompressedOf hs)
  | [], conv, unc => by simp [HPACKCodec.encodeLoop, uncompressedOf]
  | h :: rest, conv, unc => by
      rw [HPACKCodec.encodeLoop, encodeLoop_eq rest]
      simp [uncompressedOf, normalizeHeader, toLowerAscii_length]
      omega

theorem decodeLoop_eq : ∀ (hs : List HPACKHeader) (out : List HeaderPiece) (unc : Nat),
    HPACKCodec.decodeLoop hs out unc =
      (out ++ piecesOf hs, unc + uncompressedOfDecoded hs)
  | [], out, unc => by simp [HPACKCodec.decodeLoop, piecesOf, uncompressedOfDecoded]
  | h :: rest, out, unc => by
      rw [HPACKCodec.decodeLoop, decodeLoop_eq rest]
      simp [piecesOf, uncompressedOfDecoded]
      omega

theorem piecesOf_length : ∀ (hs : List HPACKHeader),
    (piecesOf hs).length = 2 * hs.length
  | [] => by simp [piecesOf]
  | h :: rest => by
      simp [piecesOf, piecesOf_length rest]
      omega

theorem piecesOf_multiValued : ∀ (hs : List HPACKHeader),
    ∀ p ∈ piecesOf hs, p.multiValued = true
  | [] => by simp [piecesOf]
  | h :: rest => by
      intro p hp
      simp [piecesOf] at hp
      rcases hp with h1 | h1 | h1
      · rw [h1]
      · rw [h1]
      · exact piecesOf_multiValued rest p h1

theorem decode_result_ok (st : HPACKCodec) (eng : EngineDecodeResult)
    (r : HeaderDecodeResult) (h : (st.decode eng).result = Except.ok r) :
    eng.error = none ∧
    r = ⟨piecesOf eng.headers, eng.consumed⟩ := by
  cases he : eng.error with
  | some e =>
      exfalso
      simp [HPACKCodec.decode, he] at h
      by_cases hc : e = HPACKDecoderError.HEADERS_TOO_LARGE <;> simp [hc] at h
  | none =>
      simp [HPACKCodec.decode, he, decodeLoop_eq] at h
      exact ⟨rfl, h.symm⟩

theorem encodeLoopS_cons (h : HeaderRef) (hs : List HeaderRef) (store : StringStore)
    (conv : List (Nat × Nat)) (unc : Nat) :
    HPACKCodec.encodeLoopS (h :: hs) store conv unc =
      HPACKCodec.encodeLoopS hs
        (store ++ [toLowerAscii (store.getD h.name []), store.getD h.value []])
        (conv ++ [(store.length, store.length + 1)])
        (unc + ((store.getD h.name []).length + (store.getD h.value []).length + 2)) := by
  have hg1 : (store ++ [store.getD h.name [], store.getD h.value []]).getD store.length []
      = store.getD h.name [] := by
    rw [List.getD_append_right _ _ _ _ (Nat.le_refl _)]
    simp [List.getD]
  have hset : (store ++ [store.getD h.name [], store.getD h.value []]).set store.length
        (toLowerAscii (store.getD h.name []))
      = store ++ [toLowerAscii (store.getD h.name []), store.getD h.value []] := by
    rw [List.set_append]
    simp
  have hg2 : (store ++ [toLowerAscii (store.getD h.name []), store.getD h.value []]).getD
        store.length [] = toLowerAscii (store.getD h.name []) := by
    rw [List.getD_append_right _ _ _ _ (Nat.le_refl _)]
    simp [List.getD]
  have hg3 : (store ++ [toLowerAscii (store.getD h.name []), store.getD h.value []]).getD
        (store.length + 1) [] = store.getD h.value [] := by
    rw [List.getD_append_right _ _ _ _ (Nat.le_succ _)]
    simp [List.getD]
  simp only [HPACKCodec.encodeLoopS, hg1, hset, hg2, hg3, toLowerAscii_length]

theorem encodeLoopS_store_extends : ∀ (hs : List HeaderRef) (store : StringStore)
    (conv : List (Nat × Nat)) (unc : Nat),
    ∃ ext, (HPACKCodec.encodeLoopS hs store conv unc).1 = store ++ ext
  | [], store, _, _ => ⟨[], by simp [HPACKCodec.encodeLoopS]⟩
  | h :: hs, store, conv, unc => by
      rw [encodeLoopS_cons]
      obtain ⟨ext, hext⟩ := encodeLoopS_store_extends hs
        (store ++ [toLowerAscii (store.getD h.name []), store.getD h.value []])
        (conv ++ [(store.length, store.length + 1)])
        (unc + ((store.getD h.name []).length + (store.getD h.value []).length + 2))
      exact ⟨[toLowerAscii (store.getD h.name []), store.getD h.value []] ++ ext, by
        rw [hext, List.append_assoc]⟩

/-! ### Claims -/

/-- C1: after a decode call on which the engine reports an error state,
the adapter returns error kind `HEADERS_TOO_LARGE` exactly when the
engine's specific error is the headers-too-large one, returns
`BAD_ENCODING` for every other engine error, and in either case the result
is the error constructor, which carries no piece list and no
`bytesConsumed` success data. -/
theorem C1_decode_error_classification (st : HPACKCodec) (eng : EngineDecodeResult)
    (e : HPACKDecoderError) (h : eng.error = some e) :
    ((st.decode eng).result = Except.error HeaderDecodeError.HEADERS_TOO_LARGE ↔
      e = HPACKDecoderError.HEADERS_TOO_LARGE) ∧
    (e ≠ HPACKDecoderError.HEADERS_TOO_LARGE →
      (st.decode eng).result = Except.error HeaderDecodeError.BAD_ENCODING) ∧
    (∀ r : HeaderDecodeResult, (st.decode eng).result ≠ Except.ok r) := by
  by_cases hc : e = HPACKDecoderError.HEADERS_TOO_LARGE <;>
    simp [HPACKCodec.decode, h, hc]

theorem C1_decode_error_classification_witness :
    ((HPACKCodec.init TransportDirection.DOWNSTREAM).decode
        ⟨0, [], some (HPACKDecoderError.other 3)⟩).result
      = Except.error HeaderDecodeError.BAD_ENCODING :=
  (C1_decode_error_classification (HPACKCodec.init TransportDirection.DOWNSTREAM)
    ⟨0, [], some (HPACKDecoderError.other 3)⟩ (HPACKDecoderError.other 3) rfl).2.1
    (by decide)

/-- C2: constructing the adapter with DOWNSTREAM binds the decoder to the
request role and the encoder to the response role; UPSTREAM binds the
decoder to the response role and the encoder to the request role; and
neither `encode` nor `decode` ever changes the two role bindings. -/
theorem C2_role_binding :
    ((HPACKCodec.init TransportDirection.DOWNSTREAM).decoderType = HPACK.MessageType.REQ ∧
     (HPACKCodec.init TransportDirection.DOWNSTREAM).encoderType = HPACK.MessageType.RESP) ∧
    ((HPACKCodec.init TransportDirection.UPSTREAM).decoderType = HPACK.MessageType.RESP ∧
     (HPACKCodec.init TransportDirection.UPSTREAM).encoderType = HPACK.MessageType.REQ) ∧
    (∀ (st : HPACKCodec) (f : List HPACKHeader → Nat → Option Bytes) (hs : List Header),
      (st.encode f hs).st.decoderType = st.decoderType ∧
      (st.encode f hs).st.encoderType = st.encoderType) ∧
    (∀ (st : HPACKCodec) (eng : EngineDecodeResult),
      (st.decode eng).st.decoderType = st.decoderType ∧
      (st.decode eng).st.encoderType = st.encoderType) := by
  refine ⟨⟨rfl, rfl⟩, ⟨rfl, rfl⟩, fun st f hs => ⟨rfl, rfl⟩, fun st eng => ?_⟩
  cases he : eng.error with
  | some e =>
      by_cases hc : e = HPACKDecoderError.HEADERS_TOO_LARGE <;>
        simp [HPACKCodec.decode, he, hc]
  | none => simp [HPACKCodec.decode, he]

/-- C3: on every encode call the recorded uncompressed size equals the sum
over the input headers of name length + value length + 2, for every engine
behaviour (hence independently of the compressed size); on every
successful decode it equals the same sum over the decoded header set; and
an empty encode input yields uncompressed size 0. -/
theorem C3_uncompressed_size_identity :
    (∀ (st : HPACKCodec) (f : List HPACKHeader → Nat → Option Bytes) (hs : List Header),
      (st.encode f hs).st.encodedSize.uncompressed = uncompressedOf hs) ∧
    (∀ (st : HPACKCodec) (eng : EngineDecodeResult) (r : HeaderDecodeResult),
      (st.decode eng).result = Except.ok r →
      (st.decode eng).st.decodedSize.uncompressed = uncompressedOfDecoded eng.headers) ∧
    (∀ (st : HPACKCodec) (f : List HPACKHeader → Nat → Option Bytes),
      (st.encode f []).st.encodedSize.uncompressed = 0) := by
  refine ⟨fun st f hs => ?_, fun st eng r h => ?_, fun st f => ?_⟩
  · simp [HPACKCodec.encode, encodeLoop_eq]
  · have := (decode_result_ok st eng r h).1
    simp [HPACKCodec.decode, this, decodeLoop_eq]
  · simp [HPACKCodec.encode, HPACKCodec.encodeLoop]

theorem C3_uncompressed_size_identity_witness :
    ((HPACKCodec.init TransportDirection.UPSTREAM).decode
        ⟨5, [⟨[97], [98, 99]⟩], none⟩).st.decodedSize.uncompressed
      = uncompressedOfDecoded [⟨[97], [98, 99]⟩] :=
  C3_uncompressed_size_identity.2.1 (HPACKCodec.init TransportDirection.UPSTREAM)
    ⟨5, [⟨[97], [98, 99]⟩], none⟩
    ⟨[⟨[97], false, true⟩, ⟨[98, 99], false, true⟩], 5⟩ rfl

/-- C4: every successful decode of N headers returns exactly the piece
list with one name piece followed by one value piece per decoded header,
in decode order (so duplicates are retained as they stand), of length 2N,
with every piece's multi-valued flag true. -/
theorem C4_piece_list_shape (st : HPACKCodec) (eng : EngineDecodeResult)
    (r : HeaderDecodeResult) (h : (st.decode eng).result = Except.ok r) :
    r.headers = piecesOf eng.headers ∧
    r.headers.length = 2 * eng.headers.length ∧
    ∀ p ∈ r.headers, p.multiValued = true := by
  have hr := (decode_result_ok st eng r h).2
  rw [hr]
  exact ⟨rfl, piecesOf_length eng.headers, piecesOf_multiValued eng.headers⟩

theorem C4_piece_list_shape_witness :
    let r : HeaderDecodeResult :=
      ⟨[⟨[97], false, true⟩, ⟨[98], false, true⟩,
        ⟨[97], false, true⟩, ⟨[99], false, true⟩], 7⟩
    r.headers.length = 2 * 2 ∧ ∀ p ∈ r.headers, p.multiValued = true := by
  have h := C4_piece_list_shape (HPACKCodec.init TransportDirection.DOWNSTREAM)
    ⟨7, [⟨[97], [98]⟩, ⟨[97], [99]⟩], none⟩
    ⟨[⟨[97], false, true⟩, ⟨[98], false, true⟩,
      ⟨[97], false, true⟩, ⟨[99], false, true⟩], 7⟩ rfl
  exact ⟨h.2.1, h.2.2⟩

/-- C5: the header sequence encode hands to the engine is the input list
with every name replaced by its ASCII-lowercase transform and every value
unchanged, in the input order; the returned buffer is the engine's answer
on exactly that sequence (and the configured headroom). -/
theorem C5_engine_sees_lowercased_names (st : HPACKCodec)
    (f : List HPACKHeader → Nat → Option Bytes) (hs : List Header) :
    (st.encode f hs).converted = hs.map normalizeHeader ∧
    (st.encode f hs).buf = f (hs.map normalizeHeader) st.encodeHeadroom := by
  simp [HPACKCodec.encode, encodeLoop_eq]

/-- C6: the result of a decode call is independent of anything a previous
decode left in the adapter: a second decode after any first one returns the
same result and the same rebuilt piece-list buffer as a decode of the
second block alone, and on success its piece list is built from the second
call's decoded headers only. -/
theorem C6_reuse_safety (st : HPACKCodec) (eng1 eng2 : EngineDecodeResult) :
    (((st.decode eng1).st).decode eng2).result = (st.decode eng2).result ∧
    (((st.decode eng1).st).decode eng2).st.outHeaders = (st.decode eng2).st.outHeaders ∧
    (∀ r : HeaderDecodeResult,
      (((st.decode eng1).st).decode eng2).result = Except.ok r →
      r.headers = piecesOf eng2.headers) := by
  refine ⟨?_, ?_, fun r h => (decode_result_ok _ eng2 r h).2 ▸ rfl⟩ <;>
  · cases he2 : eng2.error with
    | some e =>
        by_cases hc : e = HPACKDecoderError.HEADERS_TOO_LARGE <;>
          simp [HPACKCodec.decode, he2, hc]
    | none => simp [HPACKCodec.decode, he2]

theorem C6_reuse_safety_witness :
    (⟨[⟨[120], false, true⟩, ⟨[50], false, true⟩], 4⟩ : HeaderDecodeResult).headers
      = piecesOf [⟨[120], [50]⟩] :=
  (C6_reuse_safety (HPACKCodec.init TransportDirection.DOWNSTREAM)
    ⟨9, [⟨[97], [98]⟩, ⟨[99], [100]⟩], none⟩
    ⟨4, [⟨[120], [50]⟩], none⟩).2.2
    ⟨[⟨[120], false, true⟩, ⟨[50], false, true⟩], 4⟩ rfl

/-- C7: the recorded compressed size on encode is the byte length of the
engine's buffer, or 0 when the engine produced none; on every successful
decode the recorded compressed size is the engine's consumed byte count,
which is also returned as `bytesConsumed`. -/
theorem C7_compressed_size_accounting :
    (∀ (st : HPACKCodec) (f : List HPACKHeader → Nat → Option Bytes) (hs : List Header),
      (st.encode f hs).st.encodedSize.compressed =
        match (st.encode f hs).buf with
        | none => 0
        | some b => b.length) ∧
    (∀ (st : HPACKCodec) (eng : EngineDecodeResult) (r : HeaderDecodeResult),
      (st.decode eng).result = Except.ok r →
      (st.decode eng).st.decodedSize.compressed = eng.consumed ∧
      r.bytesConsumed = eng.consumed) := by
  refine ⟨fun st f hs => rfl, fun st eng r h => ?_⟩
  obtain ⟨he, hr⟩ := decode_result_ok st eng r h
  constructor
  · simp [HPACKCodec.decode, he]
  · rw [hr]

theorem C7_compressed_size_accounting_witness :
    ((HPACKCodec.init TransportDirection.UPSTREAM).decode
        ⟨11, [⟨[97], [98]⟩], none⟩).st.decodedSize.compressed = 11 ∧
    (⟨[⟨[97], false, true⟩, ⟨[98], false, true⟩], 11⟩ : HeaderDecodeResult).bytesConsumed
      = 11 :=
  C7_compressed_size_accounting.2 (HPACKCodec.init TransportDirection.UPSTREAM)
    ⟨11, [⟨[97], [98]⟩], none⟩
    ⟨[⟨[97], false, true⟩, ⟨[98], false, true⟩], 11⟩ rfl

/-- C8: encode has no error outcome: it is a total function (modelling the
`noexcept`, no-throw contract) whose result type has no error variant, it
always returns exactly the engine's buffer — including a null/empty one —
for the converted sequence, and the empty header list yields uncompressed
size 0. -/
theorem C8_encode_never_fails (st : HPACKCodec)
    (f : List HPACKHeader → Nat → Option Bytes) (hs : List Header) :
    (st.encode f hs).buf = f ((st.encode f hs).converted) st.encodeHeadroom ∧
    (st.encode f []).st.encodedSize.uncompressed = 0 := by
  exact ⟨rfl, by simp [HPACKCodec.encode, HPACKCodec.encodeLoop]⟩

/-- C9: at store level, the encode conversion loop only writes the fresh
cells it allocates for the adapter's transient copies; every cell of the
caller's store — in particular every name and value the caller's header
list points at — is unchanged after `encode` returns. -/
theorem C9_caller_strings_unmutated (st : HPACKCodec)
    (f : List HPACKHeader → Nat → Option Bytes)
    (store : StringStore) (headers : List HeaderRef) :
    ((st.encodeS f store headers).2).take store.length = store ∧
    store.length ≤ (st.encodeS f store headers).2.length := by
  obtain ⟨ext, hext⟩ := encodeLoopS_store_extends headers store [] 0
  constructor
  · simp [HPACKCodec.encodeS, hext]
  · simp [HPACKCodec.encodeS, hext]

/-- C10: a decode call on which the engine reports an error leaves the
adapter's recorded decode size pair untouched, and its stats calls are a
decode-error event exactly when a recorder is attached — never a decode
size event. -/
theorem C10_error_path_stats (st : HPACKCodec) (eng : EngineDecodeResult)
    (e : HPACKDecoderError) (h : eng.error = some e) :
    (st.decode eng).st.decodedSize = st.decodedSize ∧
    (StatsEvent.recordDecodeError CodecType.HPACK ∈ (st.decode eng).events ↔
      st.hasStats) ∧
    (∀ sz : HTTPHeaderSize,
      StatsEvent.recordDecode CodecType.HPACK sz ∉ (st.decode eng).events) := by
  by_cases hc : e = HPACKDecoderError.HEADERS_TOO_LARGE <;>
    by_cases hs : st.hasStats <;>
      simp [HPACKCodec.decode, h, hc, hs]

theorem C10_error_path_stats_witness :
    (((HPACKCodec.init TransportDirection.DOWNSTREAM).decode
        ⟨2, [], some HPACKDecoderError.HEADERS_TOO_LARGE⟩).st.decodedSize
      = (HPACKCodec.init TransportDirection.DOWNSTREAM).decodedSize) ∧
    (∀ sz : HTTPHeaderSize,
      StatsEvent.recordDecode CodecType.HPACK sz ∉
        ((HPACKCodec.init TransportDirection.DOWNSTREAM).decode
          ⟨2, [], some HPACKDecoderError.HEADERS_TOO_LARGE⟩).events) := by
  have h := C10_error_path_stats (HPACKCodec.init TransportDirection.DOWNSTREAM)
    ⟨2, [], some HPACKDecoderError.HEADERS_TOO_LARGE⟩
    HPACKDecoderError.HEADERS_TOO_LARGE rfl
  exact ⟨h.1, h.2.2⟩

end proxygen
